import Mathlib

/-!
Verification development for the CAST (Columnar Agnostic Structural
Transformation) compressor/decompressor, `python_impl/native/cast.py`.

Bytes and Unicode code points are both modelled as `Nat` inside `List Nat`.
The external LZMA and zlib codecs (out of scope for the algorithm, used as
opaque `compress/decompress` pairs) are modelled by an `Ext` record of
abstract functions; theorems that need their round-trip or non-emptiness
take them as hypotheses, and concrete evaluations instantiate them with
`extId` below.  Python float threshold tests on ratios of small integers
are modelled by the equivalent exact integer comparisons.
-/

namespace CAST

/-- The in-memory variable placeholder, U+E000 (`VAR_PLACEHOLDER`). -/
def PH : Nat := 0xE000

/-- The registry separator, U+E001 (`REG_SEP`). -/
def RS : Nat := 0xE001

/-! ### Generic list helpers used by the embedding -/

/-- Split a list on a separator element, Python `str.split(sep)` semantics:
the result is always non-empty, and empty pieces are kept. -/
def splitOnSep (sep : Nat) : List Nat → List (List Nat)
  | [] => [[]]
  | c :: rest =>
    let r := splitOnSep sep rest
    if c = sep then [] :: r
    else
      match r with
      | [] => [[c]]
      | h :: t => (c :: h) :: t

/-- Leftmost, non-overlapping replacement of a single-byte pattern,
Python `bytes.replace(bytes([a]), rep)` semantics. -/
def replaceByte (a : Nat) (rep : List Nat) : List Nat → List Nat
  | [] => []
  | c :: rest =>
    if c = a then rep ++ replaceByte a rep rest else c :: replaceByte a rep rest

/-- Leftmost, non-overlapping replacement of a two-byte pattern, Python
`bytes.replace(bytes([a, b]), rep)` semantics: after a match the scan
resumes past the matched pair, otherwise it advances one byte. -/
def replacePair (a b : Nat) (rep : List Nat) : List Nat → List Nat
  | c :: d :: rest =>
    if c = a ∧ d = b then rep ++ replacePair a b rep rest
    else c :: replacePair a b rep (d :: rest)
  | l => l

/-- Little-endian byte serialization of `n` on `w` bytes (`struct.pack`
with an in-range value; Python raises on overflow, the callers stay in
range). -/
def toLE : Nat → Nat → List Nat
  | 0, _ => []
  | w + 1, n => (n % 256) :: toLE w (n / 256)

/-- Little-endian byte deserialization (`struct.unpack`). -/
def fromLE : List Nat → Nat
  | [] => 0
  | b :: rest => b + 256 * fromLE rest

/-- Decode adjacent byte pairs as 16-bit little-endian values, dropping a
trailing odd byte (`struct.unpack` after `num_bytes // 2`). -/
def chunksLE2 : List Nat → List Nat
  | a :: b :: rest => (a + 256 * b) :: chunksLE2 rest
  | _ => []

/-- Decode adjacent 4-byte groups as 32-bit little-endian values, dropping
a trailing partial group (`struct.unpack` after `num_bytes // 4`). -/
def chunksLE4 : List Nat → List Nat
  | a :: b :: c :: d :: rest => (a + 256 * b + 65536 * c + 16777216 * d) :: chunksLE4 rest
  | _ => []

/-- Apply `f` to the element at index `i`, leave the rest unchanged. -/
def updateAt (i : Nat) (f : α → α) : List α → List α
  | [] => []
  | x :: xs =>
    match i with
    | 0 => f x :: xs
    | j + 1 => x :: updateAt j f xs

/-- Append the `i`-th variable to the `i`-th column; extra columns (or
extra variables) are left alone, matching the
`limit = min(len(vars_found), len(current_columns))` loop of `compress`. -/
def appendVars : List (List (List Nat)) → List (List Nat) → List (List (List Nat))
  | [], _ => []
  | c :: cs, [] => c :: appendVars cs []
  | c :: cs, v :: vs => (c ++ [v]) :: appendVars cs vs

/-- Index of the first occurrence of `x` (Python list/dict index lookup). -/
def idxOf (x : Nat) : List Nat → Nat
  | [] => 0
  | y :: ys => if y = x then 0 else idxOf x ys + 1

/-- The distinct elements of a list, keeping first occurrences in order
(the key order of a Python `dict`/`Counter` built by insertion). -/
def firstOccs (l : List Nat) : List Nat :=
  go l []
where
  go : List Nat → List Nat → List Nat
  | [], acc => acc
  | x :: xs, acc => if x ∈ acc then go xs acc else go xs (acc ++ [x])

/-- Stable insertion of `x` into a list sorted by `cnt` descending:
`x` goes before the first element of strictly smaller or equal count,
i.e. before later-inserted ties. -/
def insertDescBy (cnt : Nat → Nat) (x : Nat) : List Nat → List Nat
  | [] => [x]
  | y :: ys => if cnt y ≤ cnt x then x :: y :: ys else y :: insertDescBy cnt x ys

/-- Stable sort by `cnt` descending (`Counter.most_common()` ordering:
Python's `sorted(..., reverse=True)` is stable, so ties keep insertion
order). -/
def sortDescBy (cnt : Nat → Nat) : List Nat → List Nat
  | [] => []
  | x :: xs => insertDescBy cnt x (sortDescBy cnt xs)

/-! ### CRC-32 (zlib polynomial), used for the integrity check -/

/-- One bit step of the reflected CRC-32 with polynomial `0xEDB88320`. -/
def crcBit (c : Nat) : Nat :=
  if c % 2 = 1 then Nat.xor (c / 2) 0xEDB88320 else c / 2

/-- Fold one byte into the CRC state (8 bit steps). -/
def crcByte (c b : Nat) : Nat :=
  (crcBit ∘ crcBit ∘ crcBit ∘ crcBit ∘ crcBit ∘ crcBit ∘ crcBit ∘ crcBit) (Nat.xor c b)

/-- `zlib.crc32` of a byte sequence. -/
def crc32 (data : List Nat) : Nat :=
  Nat.xor (data.foldl crcByte 0xFFFFFFFF) 0xFFFFFFFF

/-! ### UTF-8 and Latin-1 codecs

Python's `str.encode("utf-8")` / `bytes.decode("utf-8")` with strict
error handling: the decoder rejects overlong forms, surrogates and
out-of-range sequences.  `bytes.decode("latin-1")` maps each byte to the
code point of the same value and never fails. -/

/-- Encode one code point to UTF-8 bytes. -/
def utf8EncodeChar (c : Nat) : List Nat :=
  if c < 0x80 then [c]
  else if c < 0x800 then [0xC0 + c / 64, 0x80 + c % 64]
  else if c < 0x10000 then [0xE0 + c / 4096, 0x80 + c / 64 % 64, 0x80 + c % 64]
  else [0xF0 + c / 262144, 0x80 + c / 4096 % 64, 0x80 + c / 64 % 64, 0x80 + c % 64]

/-- Encode a code point sequence to UTF-8 bytes. -/
def utf8Encode (s : List Nat) : List Nat :=
  s.flatMap utf8EncodeChar

/-- Is `b` a UTF-8 continuation byte (`0x80..0xBF`)? -/
def isCont (b : Nat) : Bool :=
  0x80 ≤ b ∧ b ≤ 0xBF

/-- Strict UTF-8 decoding; `none` models `UnicodeDecodeError`. -/
def utf8Decode : List Nat → Option (List Nat)
  | [] => some []
  | b :: rest =>
    if b < 0x80 then
      (utf8Decode rest).map (b :: ·)
    else if 0xC2 ≤ b ∧ b ≤ 0xDF then
      match rest with
      | b1 :: rest1 =>
        if isCont b1 then
          (utf8Decode rest1).map (((b - 0xC0) * 64 + (b1 - 0x80)) :: ·)
        else none
      | _ => none
    else if 0xE0 ≤ b ∧ b ≤ 0xEF then
      match rest with
      | b1 :: b2 :: rest2 =>
        let lo1 : Nat := if b = 0xE0 then 0xA0 else 0x80
        let hi1 : Nat := if b = 0xED then 0x9F else 0xBF
        if (lo1 ≤ b1 ∧ b1 ≤ hi1) ∧ isCont b2 then
          (utf8Decode rest2).map
            (((b - 0xE0) * 4096 + (b1 - 0x80) * 64 + (b2 - 0x80)) :: ·)
        else none
      | _ => none
    else if 0xF0 ≤ b ∧ b ≤ 0xF4 then
      match rest with
      | b1 :: b2 :: b3 :: rest3 =>
        let lo1 : Nat := if b = 0xF0 then 0x90 else 0x80
        let hi1 : Nat := if b = 0xF4 then 0x8F else 0xBF
        if (lo1 ≤ b1 ∧ b1 ≤ hi1) ∧ isCont b2 ∧ isCont b3 then
          (utf8Decode rest3).map
            (((b - 0xF0) * 262144 + (b1 - 0x80) * 4096 + (b2 - 0x80) * 64 + (b3 - 0x80)) :: ·)
        else none
      | _ => none
    else none

/-! ### Python `str.splitlines`

The line-break set of `str.splitlines` is LF, VT, FF, CR, FS, GS, RS,
NEL (U+0085), LINE SEPARATOR (U+2028) and PARAGRAPH SEPARATOR (U+2029),
with CR LF treated as a single break. -/

/-- Is `c` one of Python's `str.splitlines` line-break code points? -/
def isLineBreak (c : Nat) : Bool :=
  c = 10 ∨ c = 11 ∨ c = 12 ∨ c = 13 ∨ c = 28 ∨ c = 29 ∨ c = 30 ∨
  c = 133 ∨ c = 8232 ∨ c = 8233

/-- `str.splitlines(keepends=True)`: each line keeps its own terminator;
no produced line is empty. -/
def splitlinesKeep : List Nat → List (List Nat) :=
  go []
where
  go (acc : List Nat) : List Nat → List (List Nat)
  | [] => if acc = [] then [] else [acc.reverse]
  | 13 :: 10 :: rest => (acc.reverse ++ [13, 10]) :: go [] rest
  | c :: rest =>
    if isLineBreak c then (acc.reverse ++ [c]) :: go [] rest
    else go (c :: acc) rest

/-- `str.splitlines()` (terminators stripped), used only by the strategy
analysis. -/
def splitlinesStrip : List Nat → List (List Nat) :=
  go []
where
  go (acc : List Nat) : List Nat → List (List Nat)
  | [] => if acc = [] then [] else [acc.reverse]
  | 13 :: 10 :: rest => acc.reverse :: go [] rest
  | c :: rest =>
    if isLineBreak c then acc.reverse :: go [] rest
    else go (c :: acc) rest

/-! ### Input classifier (`_is_likely_binary`) -/

/-- Binary sniff over the first 4096 bytes: NUL or a control byte other
than TAB/LF/CR counts as suspicious; more than 1 percent trips the check
(the float test `suspicious / total > 0.01` is the exact integer test
`100 * suspicious > total` at these sizes). -/
def is_likely_binary (data : List Nat) : Bool :=
  if data = [] then false
  else
    let sample := data.take 4096
    let suspicious :=
      (sample.filter fun b => b = 0 ∨ (0 < b ∧ b < 32 ∧ b ≠ 9 ∧ b ≠ 10 ∧ b ≠ 13)).length
    decide (0 < sample.length) && decide (100 * suspicious > sample.length)

/-! ### The two tokenizer patterns

`regex_strict` is the alternation of a double-quoted literal
`"(?:[^"\\]|\\.|"")*"`, a signed decimal with optional fraction, and a
hexadecimal literal, tried in that order at each position.
`regex_aggressive` replaces the two numeric branches with a run of
`[a-zA-Z0-9_.\-]`.  The matchers below return the length of the match of
the whole pattern at the head of the list, or `none`, with the
backtracking semantics of Python `re` (ordered alternation, greedy star
with backtracking, `.` not matching a newline). -/

/-- Match `(?:[^"\\]|\\.|"")*"` at the head of the list, returning the
matched length.  The greedy star prefers another iteration (alternatives
in pattern order) and falls back to the closing quote. -/
def qtail : List Nat → Option Nat
  | [] => none
  | c :: rest =>
    if c = 34 then
      match rest with
      | d :: rest2 =>
        if d = 34 then
          match qtail rest2 with
          | some n => some (n + 2)
          | none => some 1
        else some 1
      | [] => some 1
    else if c = 92 then
      match rest with
      | d :: rest2 => if d = 10 then none else (qtail rest2).map (· + 2)
      | [] => none
    else (qtail rest).map (· + 1)

/-- Match the quoted-literal branch `"(?:[^"\\]|\\.|"")*"`. -/
def quotedM : List Nat → Option Nat
  | 34 :: rest => (qtail rest).map (· + 1)
  | _ => none

/-- Length of the leading run of ASCII decimal digits (Python `\d`,
restricted to ASCII, which is exact on every input considered here). -/
def takeDigits : List Nat → Nat
  | c :: rest => if 48 ≤ c ∧ c ≤ 57 then takeDigits rest + 1 else 0
  | [] => 0

/-- Length of the leading run of hexadecimal digits. -/
def takeHex : List Nat → Nat
  | c :: rest =>
    if (48 ≤ c ∧ c ≤ 57) ∨ (97 ≤ c ∧ c ≤ 102) ∨ (65 ≤ c ∧ c ≤ 70) then takeHex rest + 1
    else 0
  | [] => 0

/-- Length contributed by the optional fraction `(?:\.\d+)?` (greedy). -/
def fracLen : List Nat → Nat
  | 46 :: rest => let k := takeDigits rest; if k = 0 then 0 else k + 1
  | _ => 0

/-- Match the numeric branch `\-?\d+(?:\.\d+)?`. -/
def numberM : List Nat → Option Nat
  | 45 :: rest =>
    let d := takeDigits rest
    if d = 0 then none else some (1 + d + fracLen (rest.drop d))
  | l =>
    let d := takeDigits l
    if d = 0 then none else some (d + fracLen (l.drop d))

/-- Match the hexadecimal branch `0x[0-9a-fA-F]+`. -/
def hexM : List Nat → Option Nat
  | 48 :: 120 :: rest => let h := takeHex rest; if h = 0 then none else some (2 + h)
  | _ => none

/-- `regex_strict` at the head of the list: quoted literal, then number,
then hexadecimal, in alternation order. -/
def strictTry (l : List Nat) : Option Nat :=
  match quotedM l with
  | some n => some n
  | none =>
    match numberM l with
    | some n => some n
    | none => hexM l

/-- Is `c` in the aggressive token class `[a-zA-Z0-9_.\-]`? -/
def isAggChar (c : Nat) : Bool :=
  (65 ≤ c ∧ c ≤ 90) ∨ (97 ≤ c ∧ c ≤ 122) ∨ (48 ≤ c ∧ c ≤ 57) ∨ c = 95 ∨ c = 46 ∨ c = 45

/-- Length of the leading run of aggressive token characters. -/
def takeAgg : List Nat → Nat
  | c :: rest => if isAggChar c then takeAgg rest + 1 else 0
  | [] => 0

/-- `regex_aggressive` at the head of the list: quoted literal, then a
run of `[a-zA-Z0-9_.\-]`. -/
def aggTry (l : List Nat) : Option Nat :=
  match quotedM l with
  | some n => some n
  | none => let k := takeAgg l; if k = 0 then none else some k

/-- The active pattern selected by `_analyze_best_strategy`:
`true` is Aggressive, `false` is Strict. -/
def tryPat (agg : Bool) : List Nat → Option Nat :=
  if agg then aggTry else strictTry

/-! ### Strategy analysis (`_analyze_best_strategy`) -/

/-- The masking used during analysis only: every strict match is replaced
by a single `PH` (the callback there ignores quoting).  The fuel is an
upper bound on the scan steps; `maskAnalyze` supplies a sufficient one. -/
def maskAnalyzeGo : Nat → List Nat → List Nat
  | 0, _ => []
  | _, [] => []
  | fuel + 1, c :: rest =>
    match strictTry (c :: rest) with
    | some n =>
      if n = 0 then c :: maskAnalyzeGo fuel rest
      else PH :: maskAnalyzeGo fuel ((c :: rest).drop n)
    | none => c :: maskAnalyzeGo fuel rest

/-- Analysis masking of one line (`regex_strict.sub(PH, line)`). -/
def maskAnalyze (l : List Nat) : List Nat :=
  maskAnalyzeGo (l.length + 1) l

/-- Count of distinct elements (`len(set(...))`). -/
def distinctCount (l : List (List Nat)) : Nat :=
  (go l []).length
where
  go : List (List Nat) → List (List Nat) → List (List Nat)
  | [], acc => acc
  | x :: xs, acc => if x ∈ acc then go xs acc else go xs (acc ++ [x])

/-- `_analyze_best_strategy`: mask up to 1000 lines of the first 200000
characters with the strict pattern; if distinct skeletons exceed 10
percent of the sample (`10 * distinct > total`, the exact form of the
float test at these sizes), choose Aggressive. -/
def analyzeAggressive (text : List Nat) : Bool :=
  let ls := (splitlinesStrip (text.take 200000)).take 1000
  if ls = [] then false
  else 10 * distinctCount (ls.map maskAnalyze) > ls.length

/-! ### Line masking (`_mask_line`) -/

/-- The scan of `active_pattern.sub(replace_callback, line)`: at each
position try the pattern; a match of length `n` is replaced by `PH` (or
`"PH"` with the quotes stripped from the recorded variable, when the
token starts with a quote) and the scan resumes after it; otherwise one
character is copied.  Returns the masked skeleton and the captured
variables in order. -/
def maskGo (tm : List Nat → Option Nat) : Nat → List Nat → List Nat × List (List Nat)
  | 0, _ => ([], [])
  | _, [] => ([], [])
  | fuel + 1, c :: rest =>
    match tm (c :: rest) with
    | some n =>
      if n = 0 then
        let r := maskGo tm fuel rest
        (c :: r.1, r.2)
      else
        let tok := (c :: rest).take n
        let r := maskGo tm fuel ((c :: rest).drop n)
        if tok.head? = some 34 then (34 :: PH :: 34 :: r.1, (tok.drop 1).dropLast :: r.2)
        else (PH :: r.1, tok :: r.2)
    | none =>
      let r := maskGo tm fuel rest
      (c :: r.1, r.2)

/-- The substitution scan of one line, with sufficient fuel. -/
def maskSub (tm : List Nat → Option Nat) (line : List Nat) :
    List Nat × List (List Nat) :=
  maskGo tm (line.length + 1) line

/-- `_mask_line`: fail (block passthrough) when the raw line already
contains `PH` or `RS`, otherwise mask it. -/
def maskLine (tm : List Nat → Option Nat) (line : List Nat) :
    Option (List Nat × List (List Nat)) :=
  if PH ∈ line ∨ RS ∈ line then none else some (maskSub tm line)

/-! ### Template extraction (`compress`, section 2) -/

/-- The compressor state built line by line: `template_map` (as an
association list in insertion order), `skeletons_list`,
`stream_template_ids` and `columns_storage` (indexed by template id). -/
structure ExtractSt where
  tmap : List (List Nat × Nat)
  skeletons : List (List Nat)
  stream : List Nat
  columns : List (List (List (List Nat)))
  deriving DecidableEq, Repr

/-- Dictionary lookup of a skeleton (keys are unique by construction). -/
def lookupT (skel : List Nat) : List (List Nat × Nat) → Option Nat
  | [] => none
  | (s, i) :: rest => if s = skel then some i else lookupT skel rest

/-- Which passthrough the extraction loop triggered. -/
inductive PTKind where
  | collision
  | entropy
  deriving DecidableEq, Repr

/-- The entropy guard `next_template_id > num_lines * (0.40 if Aggressive
else 0.25)`, written as the exact integer comparison (`0.25` is exact in
binary; for `0.40` the integer form is exact at all realistic sizes). -/
def entropyGuardTrips (agg : Bool) (numLines nextId : Nat) : Bool :=
  if agg then 5 * nextId > 2 * numLines else 4 * nextId > numLines

/-- Process one line of the template-extraction loop. -/
def processLine (agg : Bool) (numLines : Nat) (st : ExtractSt) (line : List Nat) :
    Except PTKind ExtractSt :=
  if line = [] then .ok st
  else
    match maskLine (tryPat agg) line with
    | none => .error .collision
    | some sv =>
      match lookupT sv.1 st.tmap with
      | some tId =>
        .ok { st with stream := st.stream ++ [tId],
                      columns := updateAt tId (appendVars · sv.2) st.columns }
      | none =>
        if entropyGuardTrips agg numLines st.skeletons.length then .error .entropy
        else
          let tId := st.skeletons.length
          .ok { tmap := st.tmap ++ [(sv.1, tId)],
                skeletons := st.skeletons ++ [sv.1],
                stream := st.stream ++ [tId],
                columns := updateAt tId (appendVars · sv.2)
                  (st.columns ++ [List.replicate sv.2.length []]) }

/-- Run the extraction loop over the lines. -/
def extractGo (agg : Bool) (numLines : Nat) : ExtractSt → List (List Nat) → Except PTKind ExtractSt
  | st, [] => .ok st
  | st, l :: ls =>
    match processLine agg numLines st l with
    | .error e => .error e
    | .ok st' => extractGo agg numLines st' ls

/-- The empty compressor state. -/
def emptySt : ExtractSt := ⟨[], [], [], []⟩

/-- Template extraction over the kept-ends line list of a block. -/
def extract (agg : Bool) (lines : List (List Nat)) : Except PTKind ExtractSt :=
  extractGo agg lines.length emptySt lines

/-! ### Frequency remap (`compress`, section 3, UNIFIED only) -/

/-- `Counter(stream).most_common()` key order: distinct ids sorted by
count descending, ties in first-occurrence order (Python's sort is
stable). -/
def sortedIdsOf (stream : List Nat) : List Nat :=
  sortDescBy (fun i => stream.count i) (firstOccs stream)

/-- Rewrite `skeletons_list`, `columns_storage` and
`stream_template_ids` through the descending-frequency remap
(`template_map` is left stale, as in the source). -/
def remapState (st : ExtractSt) : ExtractSt :=
  let sIds := sortedIdsOf st.stream
  { st with
    skeletons := sIds.map (fun old => st.skeletons.getD old []),
    columns := sIds.map (fun old => st.columns.getD old []),
    stream := st.stream.map (fun old => idxOf old sIds) }

/-! ### Serialization (`compress`, section 4, Always Escaped) -/

/-- Byte stuffing of one variable value: `0x01` to `0x01 0x01`, then
`0x00` to `0x01 0x00`, then `0x02` to `0x01 0x03`, in that order. -/
def escapeVal (v : List Nat) : List Nat :=
  replaceByte 2 [1, 3] (replaceByte 0 [1, 0] (replaceByte 1 [1, 1] v))

/-- One column: escaped UTF-8 values joined by the `0x00` row separator,
closed by the `0x02` column separator. -/
def colBlob (valuesList : List (List Nat)) : List Nat :=
  List.intercalate [0] (valuesList.map fun v => escapeVal (utf8Encode v)) ++ [2]

/-- The UNIFIED variables buffer: all columns of all templates in order. -/
def varsBuffer (columns : List (List (List (List Nat)))) : List Nat :=
  columns.flatMap fun cols => cols.flatMap colBlob

/-- ID-stream serialization and the low bits of the flag byte: flag 3
elides the stream for a single template, flag 2 is 8-bit ids, flag 1 is
32-bit LE, flag 0 is 16-bit LE. -/
def packIds (numTemplates : Nat) (stream : List Nat) : List Nat × Nat :=
  if numTemplates = 1 then ([], 3)
  else if numTemplates < 256 then (stream, 2)
  else if numTemplates > 65535 then (stream.flatMap (toLE 4), 1)
  else (stream.flatMap (toLE 2), 0)

/-! ### Layout heuristic (`compress`, section 3) -/

/-- UNIFIED or SPLIT container layout. -/
inductive Layout where
  | unified
  | split
  deriving DecidableEq, Repr

/-- The sampling loop of one template: up to the first 50 values of each
column are appended and counted; after each column, a count above 2000
stops the remaining columns of this template (the Python `break` leaves
only the inner loop). -/
def sampleCols : List (List (List Nat)) → List Nat × Nat → List Nat × Nat
  | [], bc => bc
  | col :: rest, bc =>
    let buf' := bc.1 ++ (col.take 50).flatMap utf8Encode
    let count' := bc.2 + (col.take 50).length
    if count' > 2000 then (buf', count') else sampleCols rest (buf', count')

/-- The sample buffer over the first five templates. -/
def sampleBuffer (columns : List (List (List (List Nat)))) : List Nat :=
  (go (columns.take 5) ([], 0)).1
where
  go : List (List (List (List Nat))) → List Nat × Nat → List Nat × Nat
  | [], bc => bc
  | cols :: rest, bc => go rest (sampleCols cols bc)

/-- Layout decision: with fewer than 256 templates, compress the sample
with the cheap codec; a ratio below 3.0 (`len < 3 * clen` exactly)
chooses SPLIT, everything else stays UNIFIED. -/
def chooseLayout (zlen : List Nat → Nat) (numTemplates : Nat)
    (columns : List (List (List (List Nat)))) : Layout :=
  if numTemplates < 256 then
    let sample := sampleBuffer columns
    if sample.length > 0 then
      let cl := zlen sample
      if cl > 0 then
        if sample.length < 3 * cl then .split else .unified
      else .unified
    else .unified
  else .unified

/-! ### The external codecs

`lzC s` is `lzma.compress` at the three settings used by the source
(`s = 0`: preset 9; `s = 1`: preset 9 extreme; `s = 2`: the explicit
LZMA2 filter chain of the UNIFIED block), `lzD` is `lzma.decompress`
(which auto-detects the settings), and `zlC` is `zlib.compress(., 1)`.
These are outside the algorithm; theorems assume what they need of
them. -/
structure Ext where
  lzC : Nat → List Nat → List Nat
  lzD : List Nat → List Nat
  zlC : List Nat → List Nat

/-- A concrete codec instance for witnesses: prepend a byte / drop it. -/
def extId : Ext :=
  { lzC := fun _ b => 0 :: b, lzD := List.tail, zlC := fun b => b }

/-! ### The compressor (`CASTCompressor.compress` on a `bytes` input) -/

/-- Everything `compress` computes before serialization, or the
passthrough reason and the data it would compress verbatim.  The state
stored here is already frequency-remapped when the layout is UNIFIED. -/
structure Plan where
  text : List Nat
  isLatin : Bool
  agg : Bool
  st : ExtractSt
  layout : Layout
  deriving DecidableEq, Repr

/-- Sections 1 to 3 of `compress`: classification, decoding, strategy
analysis, template extraction, layout choice and frequency remap.  A
`.error` is a passthrough with its reason string and the exact bytes the
source hands to `_create_passthrough` (the entropy path passes the
re-encoded text, not the input). -/
def compressPlan (E : Ext) (input : List Nat) : Except (String × List Nat) Plan :=
  if is_likely_binary input then .error ("Passthrough [Binary]", input)
  else
    let dec := utf8Decode input
    let text := match dec with | some t => t | none => input
    let isLatin := dec.isNone
    let agg := analyzeAggressive text
    let lines := splitlinesKeep text
    match extract agg lines with
    | .error .collision => .error ("Collision Protected", input)
    | .error .entropy => .error ("Passthrough [Entropy]", utf8Encode text)
    | .ok st =>
      let layout := chooseLayout (fun b => (E.zlC b).length) st.skeletons.length st.columns
      let st' := if layout = .unified then remapState st else st
      .ok ⟨text, isLatin, agg, st', layout⟩

/-- `CASTCompressor.compress` on a byte input: returns
`(c_registry, c_ids, c_vars, id_mode_flag, mode_name-or-reason)`. -/
def compress (E : Ext) (input : List Nat) :
    List Nat × List Nat × List Nat × Nat × String :=
  match compressPlan E input with
  | .error rd => ([], [], E.lzC 1 rd.2, 255, rd.1)
  | .ok p =>
    let numTemplates := p.st.skeletons.length
    let rawRegistry := utf8Encode (List.intercalate [RS] p.st.skeletons)
    let ri := packIds numTemplates p.st.stream
    let flag := if p.isLatin then Nat.lor ri.2 128 else ri.2
    let modeName := if p.agg then "Aggressive" else "Strict"
    let vb := varsBuffer p.st.columns
    match p.layout with
    | .split => (E.lzC 0 rawRegistry, E.lzC 0 ri.1, E.lzC 1 vb, flag, modeName)
    | .unified =>
      let solid :=
        toLE 4 rawRegistry.length ++ toLE 4 ri.1.length ++ rawRegistry ++ ri.1 ++ vb
      ([], [], E.lzC 2 solid, flag, modeName)

/-! ### The decompressor (`CASTDecompressor.decompress`) -/

/-- Decompression failures: the fatal CRC `ValueError`, or any other
uncaught exception of the state machine (struct, decode, indexing,
splice-length errors). -/
inductive DErr where
  | crc (expected calculated : Nat)
  | parse
  deriving DecidableEq, Repr

/-- `_unpack_ids`: 8-bit for mode 2, 32-bit LE for mode 1, 16-bit LE for
every other mode value; empty input yields the empty stream. -/
def unpackIds (idsBytes : List Nat) (mode : Nat) : List Nat :=
  if idsBytes = [] then []
  else if mode = 2 then idsBytes
  else if mode = 1 then chunksLE4 idsBytes
  else chunksLE2 idsBytes

/-- The cell unescape applied by the decompressor after delimiting a
cell: `01 03` to `02`, then `01 00` to `00`, then `01 01` to `01`, in
that order. -/
def unescapeCell (chunk : List Nat) : List Nat :=
  replacePair 1 1 [1] (replacePair 1 0 [0] (replacePair 1 3 [2] chunk))

/-- The column-finding scan (3.1): `0x01` skips two bytes, a raw `0x02`
closes a column at the current offsets, anything else advances by one;
a final open column is closed at the end.  The fuel is an upper bound on
the loop's iterations. -/
def colScanGo : Nat → List Nat → Nat → Nat → List (Nat × Nat) → List (Nat × Nat)
  | 0, _, _, _, acc => acc
  | fuel + 1, bytes, start, i, acc =>
    if i < bytes.length then
      let v := bytes.getD i 0
      if v = 1 then colScanGo fuel bytes start (i + 2) acc
      else if v = 2 then colScanGo fuel bytes (i + 1) (i + 1) (acc ++ [(start, i)])
      else colScanGo fuel bytes start (i + 1) acc
    else if start < bytes.length then acc ++ [(start, bytes.length)]
    else acc

/-- All column offset ranges of a variables buffer. -/
def colScan (bytes : List Nat) : List (Nat × Nat) :=
  colScanGo (bytes.length + 2) bytes 0 0 []

/-- The within-column cell scan (3.2): `0x01` skips two bytes (possibly
overshooting the column end, exactly as the Python index arithmetic
does), a raw `0x00` closes and unescapes a cell, and the final cell is
taken from the last cell start to the final cursor. -/
def cellScanGo : Nat → List Nat → Nat → Nat → Nat → List (List Nat) → List (List Nat)
  | 0, bytes, _, curr, cellStart, acc =>
    acc ++ [unescapeCell ((bytes.drop cellStart).take (curr - cellStart))]
  | fuel + 1, bytes, colEnd, curr, cellStart, acc =>
    if curr < colEnd then
      let v := bytes.getD curr 0
      if v = 1 then cellScanGo fuel bytes colEnd (curr + 2) cellStart acc
      else if v = 0 then
        cellScanGo fuel bytes colEnd (curr + 1) (curr + 1)
          (acc ++ [unescapeCell ((bytes.drop cellStart).take (curr - cellStart))])
      else cellScanGo fuel bytes colEnd (curr + 1) cellStart acc
    else acc ++ [unescapeCell ((bytes.drop cellStart).take (curr - cellStart))]

/-- Decode one column range into its list of cell values. -/
def decodeColumn (bytes : List Nat) (colStart colEnd : Nat) : List (List Nat) :=
  cellScanGo (colEnd + 2) bytes colEnd colStart colStart []

/-- Bind parsed columns to templates: a template with `k` placeholders
consumes the next `k` column ranges; when the ranges run out the
remaining templates get what is left (nothing once exhausted), matching
the `StopIteration` break of the inner loop. -/
def bindColumns (bytes : List Nat) :
    List (List Nat) → List (Nat × Nat) → List (List (List (List Nat)))
  | [], _ => []
  | skel :: rest, offs =>
    let numVars := skel.count PH
    ((offs.take numVars).map fun se => decodeColumn bytes se.1 se.2) ::
      bindColumns bytes rest (offs.drop numVars)

/-- The row splice `row_components[::2] = parts; row_components[1::2] =
vars`: the slice assignments require `len(vars)` to be `len(parts) - 1`
or `len(parts)`, otherwise Python raises `ValueError`. -/
def spliceRow (parts vals : List (List Nat)) : Except DErr (List Nat) :=
  if vals.length + 1 = parts.length ∨ vals.length = parts.length then
    .ok (interleaveJoin parts vals)
  else .error .parse
where
  interleaveJoin : List (List Nat) → List (List Nat) → List Nat
  | [], vs => vs.flatten
  | p :: ps, [] => p ++ interleaveJoin ps []
  | p :: ps, v :: vs => p ++ v ++ interleaveJoin ps vs

/-- `zip(*queues)` for a non-empty list of queues: rows until the
shortest queue is exhausted. -/
def zipRowsGo : Nat → List (List (List Nat)) → List (List (List Nat))
  | 0, _ => []
  | fuel + 1, queues =>
    if queues.any (· = []) then []
    else (queues.map fun q => q.headD []) :: zipRowsGo fuel (queues.map List.tail)

/-- Rows of `zip(*queues)` (callers guarantee `queues` non-empty). -/
def zipRows (queues : List (List (List Nat))) : List (List (List Nat)) :=
  zipRowsGo ((queues.headD []).length + 1) queues

/-- Flag-3 reconstruction: splice every row of the zipped queues; with no
queues at all the source's `pass` (a TODO for fixed rows without
variables) emits nothing. -/
def reconstructSingle (parts : List (List Nat)) (queues : List (List (List Nat))) :
    Except DErr (List (List Nat)) :=
  if queues = [] then .ok []
  else goRows (zipRows queues)
where
  goRows : List (List (List Nat)) → Except DErr (List (List Nat))
  | [] => .ok []
  | r :: rs =>
    match spliceRow parts r with
    | .error e => .error e
    | .ok row => (goRows rs).map (row :: ·)

/-- Streamed reconstruction for flags other than 3: for each id, pop one
value from each of its template's queues and splice; an exhausted queue
breaks the loop (the caught `StopIteration`), an out-of-range id is an
uncaught indexing error. -/
def reconStreamGo (cache : List (List (List Nat))) :
    List (List (List (List Nat))) → List Nat → Except DErr (List (List Nat))
  | _, [] => .ok []
  | state, tid :: tids =>
    match cache[tid]?, state[tid]? with
    | some parts, some queues =>
      if queues.any (· = []) then .ok []
      else
        let vals := queues.map fun q => q.headD []
        let state' := updateAt tid (fun qs => qs.map List.tail) state
        match spliceRow parts vals with
        | .error e => .error e
        | .ok row => (reconStreamGo cache state' tids).map (row :: ·)
    | _, _ => .error .parse

/-- Sections 3 and 4 of `decompress`: scan the variables buffer, bind the
columns, rebuild every line and concatenate. -/
def reconstructAll (skeletons : List (List Nat)) (templateIds : List Nat)
    (varsData : List Nat) (realFlag : Nat) : Except DErr (List Nat) :=
  let offsets := colScan varsData
  let colsStorage := bindColumns varsData skeletons offsets
  let cache := skeletons.map fun s => (splitOnSep PH s).map utf8Encode
  let fragsE :=
    if realFlag = 3 then
      match cache[0]?, colsStorage[0]? with
      | some parts, some queues => reconstructSingle parts queues
      | _, _ => .error .parse
    else reconStreamGo cache colsStorage templateIds
  fragsE.map List.flatten

/-- The UNIFIED decode path: split the solid payload into registry, ids
and variables with the 8-byte internal header (`len_ids` is ignored and
not skipped when the real flag is 3). -/
def decompressUnifiedBody (full : List Nat) (realFlag : Nat) : Except DErr (List Nat) :=
  if full.length < 8 then .error .parse
  else
    let lenReg := fromLE (full.take 4)
    let lenIds := fromLE ((full.drop 4).take 4)
    let regBytes := (full.drop 8).take lenReg
    let idsBytes := if realFlag = 3 then [] else (full.drop (8 + lenReg)).take lenIds
    let varsData :=
      if realFlag = 3 then full.drop (8 + lenReg) else full.drop (8 + lenReg + lenIds)
    match utf8Decode regBytes with
    | none => .error .parse
    | some regText =>
      let skeletons := splitOnSep RS regText
      let templateIds := if realFlag = 3 then [] else unpackIds idsBytes realFlag
      reconstructAll skeletons templateIds varsData realFlag

/-- The SPLIT decode path: the three streams are decompressed
independently (`_unpack_ids` runs even when the real flag is 3). -/
def decompressSplitBody (regPayload idsData varsData : List Nat) (realFlag : Nat) :
    Except DErr (List Nat) :=
  match utf8Decode regPayload with
  | none => .error .parse
  | some regText =>
    let skeletons := splitOnSep RS regText
    let templateIds := unpackIds idsData realFlag
    reconstructAll skeletons templateIds varsData realFlag

/-- Sections 1 to 4 of `decompress` for a non-passthrough flag:
`is_unified` is inferred from both compressed metadata fields being
empty. -/
def decompressBody (E : Ext) (cRegistry cIds cVars : List Nat) (flag : Nat) :
    Except DErr (List Nat) :=
  let realFlag := Nat.land flag 127
  if cRegistry = [] ∧ cIds = [] then
    decompressUnifiedBody (E.lzD cVars) realFlag
  else
    decompressSplitBody (E.lzD cRegistry) (E.lzD cIds) (E.lzD cVars) realFlag

/-- Section 5 of `decompress`: when bit `0x80` is set, re-encode the
UTF-8 plaintext as Latin-1; any failure is logged and the UTF-8 bytes
are kept. -/
def latinRestore (isLatin : Bool) (blob : List Nat) : List Nat :=
  if isLatin then
    match utf8Decode blob with
    | some cs => if cs.all (· < 256) then cs else blob
    | none => blob
  else blob

/-- Section 6 of `decompress`: the fatal CRC comparison. -/
def checkCrc (expectedCrc : Option Nat) (blob : List Nat) : Except DErr (List Nat) :=
  match expectedCrc with
  | none => .ok blob
  | some e => if crc32 blob = e then .ok blob else .error (.crc e (crc32 blob))

/-- `CASTDecompressor.decompress`.  For flag 255 a CRC mismatch is only
printed and the decompressed payload is returned regardless; every other
flag runs the state machine, the Latin-1 restore and the fatal CRC
check. -/
def decompress (E : Ext) (cRegistry cIds cVars : List Nat)
    (expectedCrc : Option Nat) (idModeFlag : Nat) : Except DErr (List Nat) :=
  if idModeFlag = 255 then .ok (E.lzD cVars)
  else
    match decompressBody E cRegistry cIds cVars idModeFlag with
    | .error e => .error e
    | .ok blob => checkCrc expectedCrc (latinRestore (Nat.land idModeFlag 128 != 0) blob)

/-- The column invariant of C6: every column of template `t` has length
equal to the number of occurrences of `t` in the ID stream. -/
def ColsOk (st : ExtractSt) : Prop :=
  ∀ t col, col ∈ st.columns.getD t [] → col.length = st.stream.count t

/-- The full induction invariant of the extraction loop. -/
def ExtractInv (st : ExtractSt) : Prop :=
  (∀ s t, lookupT s st.tmap = some t →
     t < st.skeletons.length ∧ st.skeletons.getD t [] = s) ∧
  st.columns.length = st.skeletons.length ∧
  (∀ i ∈ st.stream, i < st.skeletons.length) ∧
  (∀ t, (st.columns.getD t []).length = (st.skeletons.getD t []).count PH) ∧
  ColsOk st

/-- Compress a byte sequence and decompress the resulting block with the
input's CRC-32, as the framer does. -/
def roundTrip (E : Ext) (input : List Nat) : Except DErr (List Nat) :=
  let r := compress E input
  decompress E r.1 r.2.1 r.2.2.1 (some (crc32 input)) r.2.2.2.1

/-! ## Claim theorems -/

/-- C1: the fundamental round trip `decompress(compress(B)) = B` fails on
the code.  At `B = b"*\n*\n"` compression succeeds with a single
placeholder-free template (flag 3, UNIFIED), but the decompressor's
single-template path reconstructs no rows at all (its `pass` branch is a
`TODO` in the source), returns the empty buffer, and the CRC check then
raises instead of returning `B`. -/
theorem c1_roundtrip_violated :
    compress extId [42, 10, 42, 10] =
      ([], [], [0, 2, 0, 0, 0, 0, 0, 0, 0, 42, 10], 3, "Aggressive") ∧
    (decompress extId [] [] [0, 2, 0, 0, 0, 0, 0, 0, 0, 42, 10] none 3 = .ok []) ∧
    roundTrip extId [42, 10, 42, 10] =
      .error (.crc (crc32 [42, 10, 42, 10]) (crc32 [])) ∧
    crc32 [42, 10, 42, 10] ≠ crc32 [] :=
  ⟨rfl, rfl, rfl, by decide⟩

/-- C2: the serializer's escaping composed with the decompressor's cell
decoding is not the identity.  For the value bytes `01 03` the wire cell
is `01 01 03`; the decoder's first replacement (`01 03` to `02`) fires
across the escaped pair and yields `01 02`, so the value is corrupted.
The full cell path (column scan, cell delimiting, inverse replacements)
reproduces the same corruption. -/
theorem c2_escape_decode_not_inverse :
    escapeVal [1, 3] = [1, 1, 3] ∧
    unescapeCell (escapeVal [1, 3]) = [1, 2] ∧
    colBlob [[1, 3]] = [1, 1, 3, 2] ∧
    bindColumns [1, 1, 3, 2] [[PH]] (colScan [1, 1, 3, 2]) = [[[[1, 2]]]] ∧
    unescapeCell (escapeVal [1, 3]) ≠ [1, 3] :=
  ⟨rfl, rfl, rfl, rfl, by decide⟩

/-- C3: the Latin-1 round trip fails on the code.  `b"\xAB\n\xAB\n"` is
Latin-1 but not UTF-8; compression succeeds and the flag byte is
`3 ||| 0x80 = 131`, but the block is again a placeholder-free single
template, so decompression reconstructs the empty buffer and raises a
CRC error instead of returning the original bytes. -/
theorem c3_latin1_roundtrip_violated :
    utf8Decode [171, 10, 171, 10] = none ∧
    compress extId [171, 10, 171, 10] =
      ([], [], [0, 3, 0, 0, 0, 0, 0, 0, 0, 194, 171, 10], 131, "Aggressive") ∧
    Nat.land 131 128 ≠ 0 ∧
    roundTrip extId [171, 10, 171, 10] =
      .error (.crc (crc32 [171, 10, 171, 10]) (crc32 [])) :=
  ⟨rfl, rfl, by decide, rfl⟩

/-- C4 counterexample: for the passthrough flag 255 a CRC mismatch does
not surface to the caller; the mismatching buffer is returned (the
source only prints a message there). -/
theorem c4_passthrough_mismatch_returned :
    decompress extId [] [] [0, 120] (some 0) 255 = .ok [120] ∧ crc32 [120] ≠ 0 :=
  ⟨rfl, by decide⟩

/-- C4 amended: for every flag other than 255, `decompress` never
returns a buffer whose CRC-32 differs from a supplied `expected_crc`; a
mismatch is a fatal error. -/
theorem c4_crc_mismatch_fatal_nonpassthrough (E : Ext) (cRegistry cIds cVars : List Nat)
    (e flag : Nat) (b : List Nat) (hflag : flag ≠ 255)
    (h : decompress E cRegistry cIds cVars (some e) flag = .ok b) :
    crc32 b = e := by
  unfold decompress at h
  rw [if_neg hflag] at h
  cases hb : decompressBody E cRegistry cIds cVars flag with
  | error er => rw [hb] at h; simp at h
  | ok blob =>
    rw [hb] at h
    simp only [checkCrc] at h
    split at h
    · rename_i hcrc
      cases h
      exact hcrc
    · simp at h

/-- C4 witness: a concrete non-passthrough block that decompresses
successfully under the supplied CRC, so the theorem applies and its
conclusion holds. -/
theorem c4_crc_witness :
    (2 : Nat) ≠ 255 ∧ crc32 [120, 120] = crc32 [120, 120] :=
  ⟨by decide,
   c4_crc_mismatch_fatal_nonpassthrough extId [] []
     [0, 1, 0, 0, 0, 2, 0, 0, 0, 120, 0, 0] (crc32 [120, 120]) 2 [120, 120]
     (by decide) rfl⟩

/-- C5 counterexample: flag 127 (reserved, masked value not in
`{0,1,2,3}` and not 255) is not rejected: this concrete block decodes
successfully under the default 16-bit ID width. -/
theorem c5_flag127_not_rejected :
    decompress extId [] [] [0, 1, 0, 0, 0, 4, 0, 0, 0, 120, 0, 0, 0, 0] none 127 =
      .ok [120, 120] :=
  rfl

/-- Helper for C5: `_unpack_ids` sends every mode other than 2 and 1 to
the default 16-bit branch. -/
theorem unpackIds_default (b : List Nat) (m : Nat) (h2 : m ≠ 2) (h1 : m ≠ 1) :
    unpackIds b m = unpackIds b 0 := by
  unfold unpackIds
  rw [if_neg h2, if_neg h1]
  simp

/-- Helper for C5: the reconstruction step only distinguishes mode 3. -/
theorem reconstructAll_mode (sk : List (List Nat)) (tids : List Nat) (vd : List Nat)
    (m : Nat) (h3 : m ≠ 3) :
    reconstructAll sk tids vd m = reconstructAll sk tids vd 0 := by
  unfold reconstructAll
  simp only [if_neg h3]
  norm_num

/-- Helper for C5: the UNIFIED decode path treats every mode outside
`{1,2,3}` exactly like mode 0. -/
theorem decompressUnifiedBody_mode (full : List Nat) (m : Nat)
    (h1 : m ≠ 1) (h2 : m ≠ 2) (h3 : m ≠ 3) :
    decompressUnifiedBody full m = decompressUnifiedBody full 0 := by
  unfold decompressUnifiedBody
  simp only [if_neg h3, unpackIds_default _ _ h2 h1, reconstructAll_mode _ _ _ _ h3]
  norm_num

/-- Helper for C5: the SPLIT decode path treats every mode outside
`{1,2,3}` exactly like mode 0. -/
theorem decompressSplitBody_mode (r i v : List Nat) (m : Nat)
    (h1 : m ≠ 1) (h2 : m ≠ 2) (h3 : m ≠ 3) :
    decompressSplitBody r i v m = decompressSplitBody r i v 0 := by
  unfold decompressSplitBody
  simp only [unpackIds_default _ _ h2 h1, reconstructAll_mode _ _ _ _ h3]

/-- C5 amended: an undefined flag (masked value outside `{1,2,3}`, flag
not 255) is never rejected; `decompress` behaves exactly as for the
defined 16-bit flag with the same Latin-1 bit, decoding the ID stream
under the default width. -/
theorem c5_undefined_flag_decodes_default (E : Ext) (cRegistry cIds cVars : List Nat)
    (expectedCrc : Option Nat) (flag : Nat) (h255 : flag ≠ 255)
    (h1 : Nat.land flag 127 ≠ 1) (h2 : Nat.land flag 127 ≠ 2)
    (h3 : Nat.land flag 127 ≠ 3) :
    decompress E cRegistry cIds cVars expectedCrc flag =
      decompress E cRegistry cIds cVars expectedCrc (Nat.land flag 128) := by
  have hle : Nat.land flag 128 ≤ 128 := Nat.and_le_right
  have hm255 : Nat.land flag 128 ≠ 255 := by omega
  have hmask127 : Nat.land (Nat.land flag 128) 127 = 0 := by
    show flag &&& 128 &&& 127 = 0
    rw [Nat.land_assoc, show ((128 : Nat) &&& 127) = 0 from rfl, Nat.and_zero]
  have hmask128 : Nat.land (Nat.land flag 128) 128 = Nat.land flag 128 := by
    show flag &&& 128 &&& 128 = flag &&& 128
    rw [Nat.land_assoc, show ((128 : Nat) &&& 128) = 128 from rfl]
  have hbody : decompressBody E cRegistry cIds cVars flag =
      decompressBody E cRegistry cIds cVars (Nat.land flag 128) := by
    unfold decompressBody
    rw [hmask127]
    simp only [decompressUnifiedBody_mode _ _ h1 h2 h3,
      decompressSplitBody_mode _ _ _ _ h1 h2 h3]
  unfold decompress
  rw [if_neg h255, if_neg hm255, hbody, hmask128]

/-- C5 witness: flag 127 on a concrete block behaves exactly like flag
`127 &&& 0x80 = 0`. -/
theorem c5_default_width_witness :
    (127 : Nat) ≠ 255 ∧ Nat.land 127 127 ≠ 3 ∧
    decompress extId [] [] [0, 1, 0, 0, 0, 4, 0, 0, 0, 120, 0, 0, 0, 0] none 127 =
      decompress extId [] [] [0, 1, 0, 0, 0, 4, 0, 0, 0, 120, 0, 0, 0, 0] none
        (Nat.land 127 128) :=
  ⟨by decide, by decide,
   c5_undefined_flag_decodes_default extId [] []
     [0, 1, 0, 0, 0, 4, 0, 0, 0, 120, 0, 0, 0, 0] none 127
     (by decide) (by decide) (by decide) (by decide)⟩

/-- Helper for C9: the low flag bits produced by `packIds` are at most
three. -/
theorem packIds_flag_le (n : Nat) (s : List Nat) : (packIds n s).2 ≤ 3 := by
  unfold packIds
  split_ifs <;> simp

/-- Helper for C9: no non-passthrough return carries flag 255. -/
theorem normalFlag_ne_255 (latin : Bool) (f : Nat) (hf : f ≤ 3) :
    (if latin then Nat.lor f 128 else f) ≠ 255 := by
  interval_cases f <;> cases latin <;> decide

/-- C9: provided the LZMA compressor never returns empty output, the two
metadata fields of a `compress` return are both empty exactly when the
block is a UNIFIED block or a passthrough, so the decompressor's
`is_unified` inference (both fields empty) never misclassifies a block
produced by `compress`. -/
theorem c9_unified_inference_sound (E : Ext) (input : List Nat)
    (hne : ∀ s b, E.lzC s b ≠ []) :
    ((compress E input).1 = [] ∧ (compress E input).2.1 = []) ↔
      ((compress E input).2.2.2.1 = 255 ∨
       ∃ p, compressPlan E input = .ok p ∧ p.layout = .unified) := by
  cases hp : compressPlan E input with
  | error rd =>
    simp [compress, hp]
  | ok p =>
    have hflag :
        (if p.isLatin then Nat.lor (packIds p.st.skeletons.length p.st.stream).2 128
          else (packIds p.st.skeletons.length p.st.stream).2) ≠ 255 :=
      normalFlag_ne_255 _ _ (packIds_flag_le _ _)
    cases hl : p.layout with
    | unified =>
      constructor
      · intro _
        exact .inr ⟨p, rfl, hl⟩
      · intro _
        simp [compress, hp, hl]
    | split =>
      constructor
      · intro hcc
        exfalso
        have h1 : (compress E input).1 =
            E.lzC 0 (utf8Encode (List.intercalate [RS] p.st.skeletons)) := by
          simp [compress, hp, hl]
        exact hne 0 _ (h1 ▸ hcc.1)
      · intro h
        rcases h with hflag255 | ⟨p', hp', hlay⟩
        · exfalso
          have heq : (compress E input).2.2.2.1 =
              (if p.isLatin then Nat.lor (packIds p.st.skeletons.length p.st.stream).2 128
                else (packIds p.st.skeletons.length p.st.stream).2) := by
            simp [compress, hp, hl]
          rw [heq] at hflag255
          exact hflag hflag255
        · exfalso
          cases hp'
          rw [hl] at hlay
          exact Layout.noConfusion hlay

/-- C9 witness: the inference equivalence applied to a concrete codec
that never returns empty output and a concrete UNIFIED input. -/
theorem c9_inference_witness :
    (∀ s b, extId.lzC s b ≠ []) ∧
    (((compress extId [42, 10, 42, 10]).1 = [] ∧
      (compress extId [42, 10, 42, 10]).2.1 = []) ↔
      ((compress extId [42, 10, 42, 10]).2.2.2.1 = 255 ∨
       ∃ p, compressPlan extId [42, 10, 42, 10] = .ok p ∧ p.layout = .unified)) :=
  ⟨fun s b => by simp [extId],
   c9_unified_inference_sound extId [42, 10, 42, 10] (fun s b => by simp [extId])⟩

/-! ### Helper lemmas for the extraction invariants (C6, C7) -/

theorem length_updateAt (i : Nat) (f : α → α) (l : List α) :
    (updateAt i f l).length = l.length := by
  induction l generalizing i with
  | nil => cases i <;> rfl
  | cons x xs ih => cases i <;> simp [updateAt, ih]

theorem getD_updateAt_self (i : Nat) (f : α → α) (l : List α) (d : α) (h : i < l.length) :
    (updateAt i f l).getD i d = f (l.getD i d) := by
  induction l generalizing i with
  | nil => simp at h
  | cons x xs ih =>
    cases i with
    | zero => simp [updateAt]
    | succ j =>
      simp only [updateAt, List.getD_cons_succ]
      exact ih j (by simpa using h)

theorem getD_updateAt_ne (i j : Nat) (f : α → α) (l : List α) (d : α) (h : j ≠ i) :
    (updateAt i f l).getD j d = l.getD j d := by
  induction l generalizing i j with
  | nil => cases i <;> rfl
  | cons x xs ih =>
    cases i with
    | zero =>
      cases j with
      | zero => exact absurd rfl h
      | succ k => simp [updateAt]
    | succ i' =>
      cases j with
      | zero => simp [updateAt]
      | succ k =>
        simp only [updateAt, List.getD_cons_succ]
        exact ih i' k (fun hh => h (by rw [hh]))

theorem getD_append_left {l1 l2 : List α} (i : Nat) (d : α) (h : i < l1.length) :
    (l1 ++ l2).getD i d = l1.getD i d := by
  induction l1 generalizing i with
  | nil => simp at h
  | cons x xs ih =>
    cases i with
    | zero => rfl
    | succ j =>
      simp only [List.cons_append, List.getD_cons_succ]
      exact ih j (by simp at h; omega)

theorem getD_append_length {l1 : List α} (x d : α) :
    (l1 ++ [x]).getD l1.length d = x := by
  induction l1 with
  | nil => rfl
  | cons y ys ih => simp only [List.cons_append, List.length_cons, List.getD_cons_succ]; exact ih

theorem getD_of_length_le {l : List α} (i : Nat) (d : α) (h : l.length ≤ i) :
    l.getD i d = d := by
  induction l generalizing i with
  | nil => cases i <;> rfl
  | cons x xs ih =>
    cases i with
    | zero => simp at h
    | succ j =>
      simp only [List.getD_cons_succ]
      exact ih j (by simpa using h)

theorem length_appendVars (cs : List (List (List Nat))) (vs : List (List Nat)) :
    (appendVars cs vs).length = cs.length := by
  induction cs generalizing vs with
  | nil => rfl
  | cons c cs ih => cases vs <;> simp [appendVars, ih]

theorem mem_appendVars_length {cs : List (List (List Nat))} {vs : List (List Nat)}
    (k : Nat) (hlen : cs.length ≤ vs.length) (hall : ∀ c ∈ cs, c.length = k) :
    ∀ col ∈ appendVars cs vs, col.length = k + 1 := by
  induction cs generalizing vs with
  | nil => intro col hc; simp [appendVars] at hc
  | cons c cs ih =>
    cases vs with
    | nil => simp at hlen
    | cons v vs =>
      intro col hc
      simp only [appendVars, List.mem_cons] at hc
      rcases hc with rfl | hc
      · simp [hall c (List.mem_cons_self c cs)]
      · exact ih (by simpa using hlen) (fun c' h' => hall c' (List.mem_cons_of_mem _ h')) col hc

theorem lookupT_append (skel : List Nat) (l1 l2 : List (List Nat × Nat)) :
    lookupT skel (l1 ++ l2) =
      match lookupT skel l1 with
      | some v => some v
      | none => lookupT skel l2 := by
  induction l1 with
  | nil => rfl
  | cons p l1 ih =>
    simp only [List.cons_append, lookupT]
    split <;> simp [ih]

/-! ### Masking, extraction and remap lemmas (C6, C7) -/

theorem maskGo_countPH (tm : List Nat → Option Nat) (fuel : Nat) (l : List Nat)
    (h : PH ∉ l) :
    (maskGo tm fuel l).1.count PH = (maskGo tm fuel l).2.length := by
  induction fuel generalizing l with
  | zero => simp [maskGo]
  | succ fuel ih =>
    cases l with
    | nil => simp [maskGo]
    | cons c rest =>
      have hc : c ≠ PH := fun hh => h (hh ▸ List.mem_cons_self c rest)
      have hrest : PH ∉ rest := fun hh => h (List.mem_cons_of_mem _ hh)
      have hdrop : ∀ n, PH ∉ (c :: rest).drop n :=
        fun n hh => h (List.drop_subset n _ hh)
      have h34 : (34 : Nat) ≠ PH := by decide
      unfold maskGo
      cases htm : tm (c :: rest) with
      | none =>
        simp [List.count_cons, hc, ih rest hrest]
      | some n =>
        by_cases hn : n = 0
        · simp [hn, List.count_cons, hc, ih rest hrest]
        · simp only [hn, if_false]
          by_cases hq : ((c :: rest).take n).head? = some 34
          · simp [hq, List.count_cons, hc, h34, ih _ (hdrop n)]
          · simp [hq, List.count_cons, hc, ih _ (hdrop n)]

theorem maskLine_some (tm : List Nat → Option Nat) (line : List Nat)
    (sv : List Nat × List (List Nat)) (h : maskLine tm line = some sv) :
    PH ∉ line ∧ RS ∉ line ∧ sv = maskSub tm line := by
  unfold maskLine at h
  split at h
  · exact absurd h (by simp)
  · rename_i hni
    push_neg at hni
    cases h
    exact ⟨hni.1, hni.2, rfl⟩

theorem maskLine_countPH (tm : List Nat → Option Nat) (line : List Nat)
    (sv : List Nat × List (List Nat)) (h : maskLine tm line = some sv) :
    sv.1.count PH = sv.2.length := by
  obtain ⟨hph, _, rfl⟩ := maskLine_some tm line sv h
  exact maskGo_countPH tm _ line hph

theorem inv_append_step (tmap2 : List (List Nat × Nat)) (skeletons2 : List (List Nat))
    (stream : List Nat) (columns2 : List (List (List (List Nat))))
    (tid : Nat) (skel : List Nat) (vars : List (List Nat))
    (hI1 : ∀ s t, lookupT s tmap2 = some t → t < skeletons2.length ∧ skeletons2.getD t [] = s)
    (hI3 : columns2.length = skeletons2.length)
    (hI4 : ∀ i ∈ stream, i < skeletons2.length)
    (htid : tid < skeletons2.length)
    (hI5 : ∀ t, (columns2.getD t []).length = (skeletons2.getD t []).count PH)
    (hCols : ∀ t col, col ∈ columns2.getD t [] → col.length = stream.count t)
    (hskel : skeletons2.getD tid [] = skel)
    (hvars : vars.length = skel.count PH) :
    ExtractInv ⟨tmap2, skeletons2, stream ++ [tid], updateAt tid (appendVars · vars) columns2⟩ := by
  refine ⟨hI1, ?_, ?_, ?_, ?_⟩
  · simp [length_updateAt, hI3]
  · intro i hi
    simp only [List.mem_append, List.mem_singleton] at hi
    rcases hi with h | h
    · exact hI4 i h
    · subst h; exact htid
  · intro t
    by_cases ht : t = tid
    · subst ht
      rw [getD_updateAt_self _ _ _ _ (by rw [hI3]; exact htid)]
      rw [length_appendVars]
      exact hI5 t
    · rw [getD_updateAt_ne _ _ _ _ _ ht]
      exact hI5 t
  · intro t col hcol
    by_cases ht : t = tid
    · subst ht
      rw [getD_updateAt_self _ _ _ _ (by rw [hI3]; exact htid)] at hcol
      have hcl : (columns2.getD t []).length ≤ vars.length := by
        rw [hI5 t, hskel, ← hvars]
      have hlen := mem_appendVars_length (stream.count t) hcl
        (fun c hc => hCols t c hc) col hcol
      rw [hlen]
      simp [List.count_append]
    · rw [getD_updateAt_ne _ _ _ _ _ ht] at hcol
      rw [hCols t col hcol]
      simp [List.count_append, List.count_singleton, ht]

theorem extractInv_empty : ExtractInv emptySt := by
  refine ⟨?_, rfl, ?_, ?_, ?_⟩
  · intro s t h; simp [lookupT, emptySt] at h
  · intro i hi; simp [emptySt] at hi
  · intro t; simp [emptySt]
  · intro t col h; simp [emptySt] at h

theorem processLine_inv (agg : Bool) (numLines : Nat) (st : ExtractSt) (line : List Nat)
    (st' : ExtractSt) (hinv : ExtractInv st)
    (h : processLine agg numLines st line = .ok st') :
    ExtractInv st' ∧
      st'.stream.length = st.stream.length + (if line = [] then 0 else 1) := by
  unfold processLine at h
  by_cases hline : line = []
  · rw [if_pos hline] at h
    cases h
    simp [hline, hinv]
  · rw [if_neg hline] at h
    cases hm : maskLine (tryPat agg) line with
    | none => simp only [hm] at h; exact Except.noConfusion h
    | some sv =>
      simp only [hm] at h
      obtain ⟨hI1, hI3, hI4, hI5, hCols⟩ := hinv
      have hcnt := maskLine_countPH _ _ _ hm
      cases hl : lookupT sv.1 st.tmap with
      | some tid =>
        simp only [hl] at h
        cases h
        refine ⟨?_, by simp [hline]⟩
        exact inv_append_step st.tmap st.skeletons st.stream st.columns tid sv.1 sv.2
          hI1 hI3 hI4 (hI1 _ _ hl).1 hI5 hCols (hI1 _ _ hl).2 hcnt.symm
      | none =>
        simp only [hl] at h
        cases hg : entropyGuardTrips agg numLines st.skeletons.length with
        | true => simp only [hg, if_true] at h; exact Except.noConfusion h
        | false =>
          simp only [hg, Bool.false_eq_true, if_false] at h
          cases h
          refine ⟨?_, by simp [hline]⟩
          have hn := st.skeletons.length
          apply inv_append_step (st.tmap ++ [(sv.1, st.skeletons.length)])
            (st.skeletons ++ [sv.1]) st.stream
            (st.columns ++ [List.replicate sv.2.length []])
            st.skeletons.length sv.1 sv.2
          · intro s t hlk
            rw [lookupT_append] at hlk
            cases hold : lookupT s st.tmap with
            | some t2 =>
              rw [hold] at hlk
              simp only [] at hlk
              obtain ⟨hlt, hgd⟩ := hI1 s t2 hold
              injection hlk with he
              subst he
              refine ⟨by simp; omega, ?_⟩
              rw [getD_append_left _ _ hlt]
              exact hgd
            | none =>
              rw [hold] at hlk
              simp only [lookupT] at hlk
              split at hlk
              · rename_i heq
                cases hlk
                refine ⟨by simp, ?_⟩
                rw [getD_append_length]
                exact heq
              · cases hlk
          · simp [hI3]
          · intro i hi
            have := hI4 i hi
            simp; omega
          · simp
          · intro t
            rcases Nat.lt_trichotomy t st.skeletons.length with hlt | heq | hgt
            · rw [getD_append_left _ _ (by rw [hI3]; exact hlt),
                getD_append_left _ _ hlt]
              exact hI5 t
            · subst heq
              rw [← hI3, getD_append_length]
              rw [hI3, getD_append_length]
              simp [hcnt.symm]
            · rw [getD_of_length_le _ _ (by simp [hI3]; omega),
                getD_of_length_le _ _ (by simp; omega)]
              simp
          · intro t col hcol
            rcases Nat.lt_trichotomy t st.skeletons.length with hlt | heq | hgt
            · rw [getD_append_left _ _ (by rw [hI3]; exact hlt)] at hcol
              exact hCols t col hcol
            · subst heq
              rw [← hI3, getD_append_length] at hcol
              have hcol0 := List.eq_of_mem_replicate hcol
              subst hcol0
              have : st.stream.count st.columns.length = 0 := by
                rw [List.count_eq_zero]
                intro hmem
                have := hI4 _ hmem
                omega
              rw [hI3] at this
              simp [this]
            · rw [getD_of_length_le _ _ (by simp [hI3]; omega)] at hcol
              simp at hcol
          · rw [getD_append_length]
          · exact hcnt.symm

theorem extractGo_inv (agg : Bool) (numLines : Nat) (ls : List (List Nat))
    (st st' : ExtractSt) (hinv : ExtractInv st)
    (h : extractGo agg numLines st ls = .ok st') :
    ExtractInv st' ∧
      st'.stream.length = st.stream.length + (ls.filter (· ≠ [])).length := by
  induction ls generalizing st with
  | nil =>
    unfold extractGo at h
    cases h
    simp [hinv]
  | cons l ls ih =>
    unfold extractGo at h
    cases hp : processLine agg numLines st l with
    | error e => rw [hp] at h; cases h
    | ok st1 =>
      rw [hp] at h
      obtain ⟨hinv1, hlen1⟩ := processLine_inv _ _ _ _ _ hinv hp
      obtain ⟨hinv2, hlen2⟩ := ih st1 hinv1 h
      refine ⟨hinv2, ?_⟩
      rw [hlen2, hlen1]
      by_cases hl : l = []
      · simp [hl, List.filter_cons]
      · simp [hl, List.filter_cons]
        omega

theorem mem_firstOccs_go (l acc : List Nat) (x : Nat) :
    x ∈ firstOccs.go l acc ↔ x ∈ l ∨ x ∈ acc := by
  induction l generalizing acc with
  | nil => simp [firstOccs.go]
  | cons y ys ih =>
    simp only [firstOccs.go]
    split
    · rename_i hy
      rw [ih]
      simp only [List.mem_cons]
      constructor
      · rintro (h | h)
        · exact .inl (.inr h)
        · exact .inr h
      · rintro ((rfl | h) | h)
        · exact .inr hy
        · exact .inl h
        · exact .inr h
    · rw [ih]
      simp only [List.mem_append, List.mem_singleton, List.mem_cons]
      tauto

theorem firstOccs_go_nodup (l acc : List Nat) (h : acc.Nodup) :
    (firstOccs.go l acc).Nodup := by
  induction l generalizing acc with
  | nil => exact h
  | cons y ys ih =>
    simp only [firstOccs.go]
    split
    · exact ih acc h
    · rename_i hy
      refine ih _ ?_
      simp [List.nodup_append, h, hy]

theorem mem_firstOccs (l : List Nat) (x : Nat) : x ∈ firstOccs l ↔ x ∈ l := by
  unfold firstOccs
  rw [mem_firstOccs_go]
  simp

theorem firstOccs_nodup (l : List Nat) : (firstOccs l).Nodup :=
  firstOccs_go_nodup l [] List.nodup_nil

theorem insertDescBy_perm (cnt : Nat → Nat) (x : Nat) (l : List Nat) :
    (insertDescBy cnt x l).Perm (x :: l) := by
  induction l with
  | nil => simp [insertDescBy]
  | cons y ys ih =>
    unfold insertDescBy
    split
    · exact List.Perm.refl _
    · exact (ih.cons y).trans (List.Perm.swap x y ys)

theorem sortDescBy_perm (cnt : Nat → Nat) (l : List Nat) :
    (sortDescBy cnt l).Perm l := by
  induction l with
  | nil => simp [sortDescBy]
  | cons x xs ih =>
    unfold sortDescBy
    exact (insertDescBy_perm cnt x _).trans (ih.cons x)

theorem insertDescBy_pairwise (cnt : Nat → Nat) (x : Nat) (l : List Nat)
    (h : l.Pairwise (fun a b => cnt b ≤ cnt a)) :
    (insertDescBy cnt x l).Pairwise (fun a b => cnt b ≤ cnt a) := by
  induction l with
  | nil => simp [insertDescBy]
  | cons y ys ih =>
    unfold insertDescBy
    rcases List.pairwise_cons.mp h with ⟨hy, hys⟩
    split
    · rename_i hle
      refine List.pairwise_cons.mpr ⟨?_, h⟩
      intro z hz
      rcases List.mem_cons.mp hz with rfl | hz
      · exact hle
      · exact le_trans (hy z hz) hle
    · rename_i hgt
      push_neg at hgt
      refine List.pairwise_cons.mpr ⟨?_, ih hys⟩
      intro z hz
      have hz' := (insertDescBy_perm cnt x ys).mem_iff.mp hz
      rcases List.mem_cons.mp hz' with rfl | hz'
      · exact le_of_lt hgt
      · exact hy z hz'

theorem sortDescBy_pairwise (cnt : Nat → Nat) (l : List Nat) :
    (sortDescBy cnt l).Pairwise (fun a b => cnt b ≤ cnt a) := by
  induction l with
  | nil => simp [sortDescBy]
  | cons x xs ih => exact insertDescBy_pairwise cnt x _ ih

theorem idxOf_lt_length {x : Nat} {l : List Nat} (h : x ∈ l) : idxOf x l < l.length := by
  induction l with
  | nil => simp at h
  | cons y ys ih =>
    unfold idxOf
    split
    · simp
    · rename_i hne
      rcases List.mem_cons.mp h with rfl | h
      · exact absurd rfl hne
      · have := ih h
        simp only [List.length_cons]
        omega

theorem getD_idxOf {x : Nat} {l : List Nat} (d : Nat) (h : x ∈ l) :
    l.getD (idxOf x l) d = x := by
  induction l with
  | nil => simp at h
  | cons y ys ih =>
    unfold idxOf
    split
    · rename_i he; simpa using he
    · rename_i hne
      rcases List.mem_cons.mp h with rfl | h
      · exact absurd rfl hne
      · simpa using ih h

theorem idxOf_getD {l : List Nat} (hnd : l.Nodup) (t : Nat) (d : Nat)
    (ht : t < l.length) : idxOf (l.getD t d) l = t := by
  induction l generalizing t with
  | nil => simp at ht
  | cons y ys ih =>
    rcases List.nodup_cons.mp hnd with ⟨hy, hys⟩
    cases t with
    | zero => simp [idxOf]
    | succ t' =>
      have ht' : t' < ys.length := by simpa using ht
      have hmem : ys.getD t' d ∈ ys := by
        rw [List.getD_eq_getElem?_getD, List.getElem?_eq_getElem ht']
        exact List.getElem_mem ht'
      simp only [List.getD_cons_succ]
      unfold idxOf
      split
      · rename_i he
        rw [← he] at hmem
        exact absurd hmem hy
      · rw [ih hys t' ht']

theorem getD_map_lt {α : Type} (f : Nat → α) (l : List Nat) (t : Nat) (d : α)
    (h : t < l.length) : (l.map f).getD t d = f (l.getD t 0) := by
  induction l generalizing t with
  | nil => simp at h
  | cons y ys ih =>
    cases t with
    | zero => rfl
    | succ t' =>
      simp only [List.map_cons, List.getD_cons_succ]
      exact ih t' (by simpa using h)

theorem count_map_idxOf (s sIds : List Nat) (hnd : sIds.Nodup)
    (hmem : ∀ x ∈ s, x ∈ sIds) (t : Nat) :
    (s.map (fun old => idxOf old sIds)).count t =
      if t < sIds.length then s.count (sIds.getD t 0) else 0 := by
  induction s with
  | nil => simp
  | cons x s' ih =>
    have hx : x ∈ sIds := hmem x (List.mem_cons_self x s')
    have ih' := ih (fun y hy => hmem y (List.mem_cons_of_mem _ hy))
    by_cases ht : t < sIds.length
    · rw [List.map_cons, List.count_cons, ih', if_pos ht, if_pos ht, List.count_cons]
      congr 1
      simp only [beq_iff_eq]
      by_cases he : idxOf x sIds = t
      · have hgd : sIds.getD t 0 = x := by rw [← he]; exact getD_idxOf 0 hx
        rw [if_pos he, if_pos hgd.symm]
      · have hgd : sIds.getD t 0 ≠ x := fun hc =>
          he (by rw [← hc]; exact idxOf_getD hnd t 0 ht)
        rw [if_neg he, if_neg (fun hc => hgd (Eq.symm hc))]
    · rw [List.map_cons, List.count_cons, ih', if_neg ht, if_neg ht]
      have hlt := idxOf_lt_length hx
      have hne : ¬(idxOf x sIds = t) := by omega
      simp only [beq_iff_eq]
      rw [if_neg hne]

theorem getD_eq_get {α : Type} {l : List α} (i : Nat) (d : α) (h : i < l.length) :
    l.getD i d = l.get ⟨i, h⟩ := by
  induction l generalizing i with
  | nil => simp at h
  | cons x xs ih =>
    cases i with
    | zero => rfl
    | succ j => simp only [List.getD_cons_succ, List.get_cons_succ]; exact ih j _

theorem sortedIdsOf_nodup (stream : List Nat) : (sortedIdsOf stream).Nodup :=
  ((sortDescBy_perm _ _).nodup_iff).mpr (firstOccs_nodup stream)

theorem mem_sortedIdsOf {stream : List Nat} {x : Nat} (h : x ∈ stream) :
    x ∈ sortedIdsOf stream :=
  (sortDescBy_perm _ _).mem_iff.mpr ((mem_firstOccs _ _).mpr h)

theorem remap_stream_eq (st : ExtractSt) :
    (remapState st).stream = st.stream.map (fun old => idxOf old (sortedIdsOf st.stream)) := by
  rfl

theorem remap_columns_eq (st : ExtractSt) :
    (remapState st).columns =
      (sortedIdsOf st.stream).map (fun old => st.columns.getD old []) := by
  rfl

theorem remap_count (st : ExtractSt) (t : Nat) :
    (remapState st).stream.count t =
      if t < (sortedIdsOf st.stream).length then
        st.stream.count ((sortedIdsOf st.stream).getD t 0)
      else 0 := by
  rw [remap_stream_eq]
  exact count_map_idxOf st.stream (sortedIdsOf st.stream) (sortedIdsOf_nodup _)
    (fun x hx => mem_sortedIdsOf hx) t

theorem colsOk_remap (st : ExtractSt) (h : ColsOk st) : ColsOk (remapState st) := by
  intro t col hcol
  rw [remap_count]
  rw [remap_columns_eq] at hcol
  by_cases ht : t < (sortedIdsOf st.stream).length
  · rw [if_pos ht]
    rw [getD_map_lt _ _ t [] ht] at hcol
    exact h _ col hcol
  · rw [getD_of_length_le _ _ (by simp [List.length_map]; omega)] at hcol
    simp at hcol

theorem remap_count_desc (st : ExtractSt) (i : Nat) :
    (remapState st).stream.count (i + 1) ≤ (remapState st).stream.count i := by
  rw [remap_count, remap_count]
  by_cases h1 : i + 1 < (sortedIdsOf st.stream).length
  · rw [if_pos h1, if_pos (by omega)]
    have hp := sortDescBy_pairwise (fun j => st.stream.count j) (firstOccs st.stream)
    have hp' := List.pairwise_iff_get.mp hp
    have hi : i < (sortedIdsOf st.stream).length := by omega
    rw [getD_eq_get (i + 1) 0 h1, getD_eq_get i 0 hi]
    exact hp' ⟨i, hi⟩ ⟨i + 1, h1⟩ (by simp)
  · rw [if_neg h1]
    simp

/-- C6: on every successful (non-passthrough) extraction, the ID stream
has one entry per non-empty input line, and every column of every
template has length equal to the number of occurrences of its template's
ID in the stream; the UNIFIED frequency remap preserves both
invariants. -/
theorem c6_extraction_invariants (agg : Bool) (lines : List (List Nat)) (st : ExtractSt)
    (h : extract agg lines = .ok st) :
    st.stream.length = (lines.filter (· ≠ [])).length ∧ ColsOk st ∧
    (remapState st).stream.length = (lines.filter (· ≠ [])).length ∧
    ColsOk (remapState st) := by
  obtain ⟨hinv, hlen⟩ := extractGo_inv agg lines.length lines emptySt st extractInv_empty h
  have hc : ColsOk st := hinv.2.2.2.2
  have hl : st.stream.length = (lines.filter (· ≠ [])).length := by
    simpa [emptySt] using hlen
  refine ⟨hl, hc, ?_, colsOk_remap st hc⟩
  rw [remap_stream_eq, List.length_map]
  exact hl

/-- C7: after the descending-frequency remap (applied exactly when
`compress` chooses the UNIFIED layout), the count of ID `i` in the
emitted stream is at least the count of ID `i + 1` for every `i`, and
new ID 0 is the most frequent template. -/
theorem c7_remap_descending (st : ExtractSt) :
    (∀ i, (remapState st).stream.count (i + 1) ≤ (remapState st).stream.count i) ∧
    ∀ i, (remapState st).stream.count i ≤ (remapState st).stream.count 0 := by
  refine ⟨remap_count_desc st, ?_⟩
  intro i
  induction i with
  | zero => exact le_refl _
  | succ n ihn => exact le_trans (remap_count_desc st n) ihn


/-- C6 witness: the invariants instantiated on a concrete one-line
extraction. -/
theorem c6_invariants_witness :
    extract false [[49, 10]] =
      .ok ⟨[([57344, 10], 0)], [[57344, 10]], [0], [[[[49]]]]⟩ ∧
    ColsOk ⟨[([57344, 10], 0)], [[57344, 10]], [0], [[[[49]]]]⟩ ∧
    ColsOk (remapState ⟨[([57344, 10], 0)], [[57344, 10]], [0], [[[[49]]]]⟩) :=
  ⟨rfl,
   (c6_extraction_invariants false [[49, 10]] _ rfl).2.1,
   (c6_extraction_invariants false [[49, 10]] _ rfl).2.2.2⟩

/-! ### Serialization helper lemmas (C10) -/

theorem toLE_length (w n : Nat) : (toLE w n).length = w := by
  induction w generalizing n with
  | zero => rfl
  | succ w ih => simp [toLE, ih]

theorem fromLE_toLE (w n : Nat) (h : n < 256 ^ w) : fromLE (toLE w n) = n := by
  induction w generalizing n with
  | zero => simp [Nat.pow_zero] at h; simp [toLE, fromLE, h]
  | succ w ih =>
    have hdiv : n / 256 < 256 ^ w := by
      rw [Nat.div_lt_iff_lt_mul (by norm_num)]
      calc n < 256 ^ (w + 1) := h
        _ = 256 ^ w * 256 := by ring
    simp only [toLE, fromLE, ih (n / 256) hdiv]
    omega

theorem splitOnSep_not_mem (sep : Nat) (l : List Nat) (h : sep ∉ l) :
    splitOnSep sep l = [l] := by
  induction l with
  | nil => rfl
  | cons c rest ih =>
    have hc : c ≠ sep := fun hh => h (hh ▸ List.mem_cons_self c rest)
    have hrest : sep ∉ rest := fun hh => h (List.mem_cons_of_mem _ hh)
    simp only [splitOnSep, if_neg hc, ih hrest]

theorem take_len_append {α : Type} {l1 l2 : List α} (n : Nat) (h : l1.length = n) :
    (l1 ++ l2).take n = l1 := by
  subst h
  exact List.take_left l1 l2

theorem drop_len_append {α : Type} {l1 l2 : List α} (n : Nat) (h : l1.length = n) :
    (l1 ++ l2).drop n = l2 := by
  subst h
  exact List.drop_left l1 l2

/-- Helper for C10: a single placeholder-free skeleton binds zero
columns, so reconstruction emits no rows at all. -/
theorem reconstructAll_flag3_no_placeholder (S varsData : List Nat)
    (hph : S.count PH = 0) :
    reconstructAll [S] [] varsData 3 = .ok [] := by
  unfold reconstructAll
  simp only [bindColumns, hph, List.take_zero, List.map_nil, reduceIte]
  rfl

/-- Helper for C10: any UNIFIED flag-3 block whose single skeleton has
no placeholder decodes to the empty byte string, whatever the variables
buffer holds. -/
theorem flag3_no_placeholder_decodes_empty (E : Ext)
    (vb regBytes varsB S : List Nat)
    (hvb : E.lzD vb = toLE 4 regBytes.length ++ toLE 4 0 ++ regBytes ++ varsB)
    (hlen : regBytes.length < 4294967296)
    (hdec : utf8Decode regBytes = some S) (hrs : RS ∉ S) (hph : S.count PH = 0) :
    decompressBody E [] [] vb 3 = .ok [] := by
  unfold decompressBody
  rw [if_pos ⟨rfl, rfl⟩, hvb]
  have h4 : (toLE 4 regBytes.length).length = 4 := toLE_length 4 _
  have h40 : (toLE 4 (0 : Nat)).length = 4 := toLE_length 4 0
  have h8 : (toLE 4 regBytes.length ++ toLE 4 0).length = 8 := by simp [h4, h40]
  have hassoc : toLE 4 regBytes.length ++ toLE 4 0 ++ regBytes ++ varsB =
      (toLE 4 regBytes.length ++ toLE 4 0) ++ (regBytes ++ varsB) := by
    simp [List.append_assoc]
  show decompressUnifiedBody
      (toLE 4 regBytes.length ++ toLE 4 0 ++ regBytes ++ varsB) (Nat.land 3 127) = .ok []
  rw [hassoc]
  unfold decompressUnifiedBody
  rw [if_neg (by simp [h4, h40]; omega)]
  have htake4 : ((toLE 4 regBytes.length ++ toLE 4 0) ++ (regBytes ++ varsB)).take 4 =
      toLE 4 regBytes.length := by
    rw [List.append_assoc]
    exact take_len_append 4 h4
  have hdrop4take4 :
      (((toLE 4 regBytes.length ++ toLE 4 0) ++ (regBytes ++ varsB)).drop 4).take 4 =
      toLE 4 0 := by
    rw [List.append_assoc, drop_len_append 4 h4]
    exact take_len_append 4 h40
  have hdrop8 : ((toLE 4 regBytes.length ++ toLE 4 0) ++ (regBytes ++ varsB)).drop 8 =
      regBytes ++ varsB := drop_len_append 8 h8
  have hpre : ((toLE 4 regBytes.length ++ toLE 4 0) ++ regBytes).length =
      8 + regBytes.length := by
    simp only [List.length_append, h4, h40]
  have hdropAll :
      ((toLE 4 regBytes.length ++ toLE 4 0) ++ (regBytes ++ varsB)).drop
        (8 + regBytes.length) = varsB := by
    rw [← List.append_assoc]
    exact drop_len_append _ hpre
  have htakeReg : (regBytes ++ varsB).take regBytes.length = regBytes :=
    take_len_append regBytes.length rfl
  simp only [htake4, hdrop4take4, hdrop8, fromLE_toLE 4 regBytes.length hlen,
    htakeReg, hdec, hdropAll, reduceIte]
  rw [splitOnSep_not_mem RS S hrs]
  exact reconstructAll_flag3_no_placeholder S varsB hph



set_option maxRecDepth 16384 in
/-- C10: a flag-3 block whose unique skeleton contains no placeholder
reconstructs zero rows (the empty byte string) in general, and on the
concrete input of `"***"` twice with newlines compression succeeds
(flag 3, UNIFIED, placeholder-free skeleton) while decompression returns
the empty buffer without a CRC, and raises the CRC error against the
original's CRC. -/
theorem c10_placeholder_free_single_template (E : Ext)
    (hinv : ∀ s b, E.lzD (E.lzC s b) = b) :
    (∀ vb regBytes varsB S,
       E.lzD vb = toLE 4 regBytes.length ++ toLE 4 0 ++ regBytes ++ varsB →
       regBytes.length < 4294967296 →
       utf8Decode regBytes = some S → RS ∉ S → S.count PH = 0 →
       decompressBody E [] [] vb 3 = .ok []) ∧
    compress E [42, 42, 42, 10, 42, 42, 42, 10] =
      ([], [], E.lzC 2 [4, 0, 0, 0, 0, 0, 0, 0, 42, 42, 42, 10], 3, "Aggressive") ∧
    decompress E [] [] (E.lzC 2 [4, 0, 0, 0, 0, 0, 0, 0, 42, 42, 42, 10]) none 3 =
      .ok [] ∧
    decompress E [] [] (E.lzC 2 [4, 0, 0, 0, 0, 0, 0, 0, 42, 42, 42, 10])
      (some (crc32 [42, 42, 42, 10, 42, 42, 42, 10])) 3 =
      .error (.crc (crc32 [42, 42, 42, 10, 42, 42, 42, 10]) 0) := by
  have hbody : decompressBody E [] []
      (E.lzC 2 [4, 0, 0, 0, 0, 0, 0, 0, 42, 42, 42, 10]) 3 = .ok [] := by
    unfold decompressBody
    rw [if_pos ⟨rfl, rfl⟩, hinv 2 _]
    rfl
  refine ⟨fun vb rB vB S h1 h2 h3 h4 h5 =>
      flag3_no_placeholder_decodes_empty E vb rB vB S h1 h2 h3 h4 h5, ?_, ?_, ?_⟩
  · unfold compress
    rw [show compressPlan E [42, 42, 42, 10, 42, 42, 42, 10] =
        Except.ok ⟨[42, 42, 42, 10, 42, 42, 42, 10], false, true,
          ⟨[([42, 42, 42, 10], 0)], [[42, 42, 42, 10]], [0, 0], [[]]⟩, .unified⟩ from rfl]
    rfl
  · unfold decompress
    rw [if_neg (by decide), hbody]
    rfl
  · unfold decompress
    rw [if_neg (by decide), hbody]
    rfl


/-- C10 witness: the theorem applied to the concrete codec. -/
theorem c10_flag3_witness :
    (∀ s b, extId.lzD (extId.lzC s b) = b) ∧
    decompress extId [] [] (extId.lzC 2 [4, 0, 0, 0, 0, 0, 0, 0, 42, 42, 42, 10])
      (some (crc32 [42, 42, 42, 10, 42, 42, 42, 10])) 3 =
      .error (.crc (crc32 [42, 42, 42, 10, 42, 42, 42, 10]) 0) :=
  ⟨fun _ _ => rfl,
   (c10_placeholder_free_single_template extId (fun _ _ => rfl)).2.2.2⟩

set_option maxRecDepth 100000 in
/-- C8 amended: on the input `"a=1\na=2\na=3\n"` the strategy analysis
chooses the Aggressive pattern, so compress produces exactly one
template with skeleton `PH=PH\n`, flag 3 with the ID stream elided, and
two columns `["a","a","a"]` and `["1","2","3"]`; decompressing with the
input's CRC yields the identical 12 bytes. -/
theorem c8_single_template_roundtrip (E : Ext)
    (hinv : ∀ s b, E.lzD (E.lzC s b) = b) (hne : ∀ s b, E.lzC s b ≠ []) :
    (∃ p, compressPlan E [97, 61, 49, 10, 97, 61, 50, 10, 97, 61, 51, 10] = .ok p ∧
       p.st.skeletons = [[57344, 61, 57344, 10]] ∧
       p.st.columns = [[[[97], [97], [97]], [[49], [50], [51]]]] ∧
       packIds p.st.skeletons.length p.st.stream = ([], 3)) ∧
    (compress E [97, 61, 49, 10, 97, 61, 50, 10, 97, 61, 51, 10]).2.2.2.1 = 3 ∧
    roundTrip E [97, 61, 49, 10, 97, 61, 50, 10, 97, 61, 51, 10] =
      .ok [97, 61, 49, 10, 97, 61, 50, 10, 97, 61, 51, 10] := by
  have hplan : compressPlan E [97, 61, 49, 10, 97, 61, 50, 10, 97, 61, 51, 10] =
      .ok ⟨[97, 61, 49, 10, 97, 61, 50, 10, 97, 61, 51, 10], false, true,
        (if chooseLayout (fun b => (E.zlC b).length) 1
            [[[[97], [97], [97]], [[49], [50], [51]]]] = .unified then
          remapState ⟨[([57344, 61, 57344, 10], 0)], [[57344, 61, 57344, 10]], [0, 0, 0],
            [[[[97], [97], [97]], [[49], [50], [51]]]]⟩
        else ⟨[([57344, 61, 57344, 10], 0)], [[57344, 61, 57344, 10]], [0, 0, 0],
            [[[[97], [97], [97]], [[49], [50], [51]]]]⟩),
        chooseLayout (fun b => (E.zlC b).length) 1
          [[[[97], [97], [97]], [[49], [50], [51]]]]⟩ := rfl
  cases hL : chooseLayout (fun b => (E.zlC b).length) 1
      [[[[97], [97], [97]], [[49], [50], [51]]]] with
  | split =>
    rw [hL] at hplan
    have hplan2 : compressPlan E [97, 61, 49, 10, 97, 61, 50, 10, 97, 61, 51, 10] =
        .ok ⟨[97, 61, 49, 10, 97, 61, 50, 10, 97, 61, 51, 10], false, true,
          ⟨[([57344, 61, 57344, 10], 0)], [[57344, 61, 57344, 10]], [0, 0, 0],
            [[[[97], [97], [97]], [[49], [50], [51]]]]⟩, .split⟩ := by
      rw [hplan]; rfl
    have hcomp : compress E [97, 61, 49, 10, 97, 61, 50, 10, 97, 61, 51, 10] =
        (E.lzC 0 [238, 128, 128, 61, 238, 128, 128, 10], E.lzC 0 [],
         E.lzC 1 [97, 0, 97, 0, 97, 2, 49, 0, 50, 0, 51, 2], 3, "Aggressive") := by
      unfold compress
      rw [hplan2]
      rfl
    refine ⟨⟨_, hplan2, rfl, rfl, rfl⟩, ?_, ?_⟩
    · rw [hcomp]
    · unfold roundTrip
      rw [hcomp]
      show decompress E (E.lzC 0 [238, 128, 128, 61, 238, 128, 128, 10]) (E.lzC 0 [])
        (E.lzC 1 [97, 0, 97, 0, 97, 2, 49, 0, 50, 0, 51, 2])
        (some (crc32 [97, 61, 49, 10, 97, 61, 50, 10, 97, 61, 51, 10])) 3 = _
      unfold decompress
      rw [if_neg (by decide)]
      unfold decompressBody
      rw [if_neg (fun hcc => hne 0 _ hcc.1)]
      rw [hinv 0 _, hinv 0 _, hinv 1 _]
      rfl
  | unified =>
    rw [hL] at hplan
    have hplan2 : compressPlan E [97, 61, 49, 10, 97, 61, 50, 10, 97, 61, 51, 10] =
        .ok ⟨[97, 61, 49, 10, 97, 61, 50, 10, 97, 61, 51, 10], false, true,
          ⟨[([57344, 61, 57344, 10], 0)], [[57344, 61, 57344, 10]], [0, 0, 0],
            [[[[97], [97], [97]], [[49], [50], [51]]]]⟩, .unified⟩ := by
      rw [hplan]; rfl
    have hcomp : compress E [97, 61, 49, 10, 97, 61, 50, 10, 97, 61, 51, 10] =
        ([], [], E.lzC 2 [8, 0, 0, 0, 0, 0, 0, 0, 238, 128, 128, 61, 238, 128, 128, 10,
          97, 0, 97, 0, 97, 2, 49, 0, 50, 0, 51, 2], 3, "Aggressive") := by
      unfold compress
      rw [hplan2]
      rfl
    refine ⟨⟨_, hplan2, rfl, rfl, rfl⟩, ?_, ?_⟩
    · rw [hcomp]
    · unfold roundTrip
      rw [hcomp]
      show decompress E [] [] (E.lzC 2 [8, 0, 0, 0, 0, 0, 0, 0, 238, 128, 128, 61,
        238, 128, 128, 10, 97, 0, 97, 0, 97, 2, 49, 0, 50, 0, 51, 2])
        (some (crc32 [97, 61, 49, 10, 97, 61, 50, 10, 97, 61, 51, 10])) 3 = _
      unfold decompress
      rw [if_neg (by decide)]
      unfold decompressBody
      rw [if_pos ⟨rfl, rfl⟩]
      rw [hinv 2 _]
      rfl


/-- C8 counterexample: the skeleton of the single template is
`PH=PH\n`, not the claimed `a=PH\n` (the analysis ratio 1/3 exceeds
0.10, selecting the Aggressive tokenizer, which also masks `a`). -/
theorem c8_skeleton_not_strict :
    (∃ p, compressPlan extId [97, 61, 49, 10, 97, 61, 50, 10, 97, 61, 51, 10] = .ok p ∧
       p.st.skeletons = [[57344, 61, 57344, 10]]) ∧
    [[(57344 : Nat), 61, 57344, 10]] ≠ [[97, 61, 57344, 10]] :=
  ⟨⟨_, rfl, rfl⟩, by decide⟩

/-- C8 witness: the amended scenario applied to the concrete codec. -/
theorem c8_roundtrip_witness :
    (∀ s b, extId.lzD (extId.lzC s b) = b) ∧
    roundTrip extId [97, 61, 49, 10, 97, 61, 50, 10, 97, 61, 51, 10] =
      .ok [97, 61, 49, 10, 97, 61, 50, 10, 97, 61, 51, 10] :=
  ⟨fun _ _ => rfl,
   (c8_single_template_roundtrip extId (fun _ _ => rfl)
     (fun _ _ => by simp [extId])).2.2⟩

end CAST
